import Mathlib

/-!
Verification of the AirSecAnalyzer satellite-link testing harness.

Shallow embedding of the core of `SatTest/SatTest.py` and
`GNURadio/recording.py`:

* byte buffers (Python `bytes` / `bytearray`) are `List Nat`, every
  element intended to lie in `[0, 255]`;
* the classifier `check_protocol` returns `Option Protocol`
  (`none` models Python's `None`, i.e. the spec's `Unknown`);
* `random.*` draws are threaded through an explicit `RNG` record so the
  strategies become deterministic functions of the random source;
* a Python statement that can raise (`bytearray.__setitem__` with a value
  outside `range(0, 256)`) is embedded as `Except String`;
* the file read in `build_common_values_from_file` is replaced by passing
  the file's contents (a byte list) directly.
-/

namespace AirSec

/-- Protocol tags returned by `check_protocol`; Python returns the strings
"DVB-S2" / "CCSDS" or `None` (the spec's `Unknown`, `none` here). -/
inductive Protocol where
  | DVBS2
  | CCSDS
deriving DecidableEq

/-- Embedding of `check_protocol` (SatTest.py lines 55-62): length guard
first, then `data[0] == 0x47` (DVB-S2), then `data[0:3] == 1A CF FC`
(CCSDS), else `None`.  `data[0]` is `data.headD 0`, safe because the
branch is only reached when `10 ≤ data.length`. -/
def check_protocol (data : List Nat) : Option Protocol :=
  if 10 ≤ data.length then
    if data.headD 0 = 0x47 then some Protocol.DVBS2
    else if data.take 3 = [0x1A, 0xCF, 0xFC] then some Protocol.CCSDS
    else none
  else none

/-- The classifier exactly as the spec words it (section 4.1): ordered
rules, first match wins, `none` standing for `Unknown`. -/
def checkProtocolSpec (data : List Nat) : Option Protocol :=
  if data.length < 10 then none
  else if data.headD 0 = 0x47 then some Protocol.DVBS2
  else if data.take 3 = [0x1A, 0xCF, 0xFC] then some Protocol.CCSDS
  else none

/-- Fuel-indexed core of Python `bytes.count(sub)` for a non-empty `sub`:
greedy left-to-right count of NON-overlapping occurrences (after a match
the scan resumes past the matched window).  Fuel `data.length` always
suffices since every step drops at least one byte. -/
def countOccFuel (seg : List Nat) : Nat → List Nat → Nat
  | 0, _ => 0
  | _ + 1, [] => 0
  | fuel + 1, a :: rest =>
    if (a :: rest).take seg.length = seg then
      1 + countOccFuel seg fuel ((a :: rest).drop seg.length)
    else
      countOccFuel seg fuel rest

/-- Python `data.count(seg)` on bytes: `len(data) + 1` for the empty
pattern, else the greedy non-overlapping occurrence count. -/
def bytesCount (data seg : List Nat) : Nat :=
  match seg with
  | [] => data.length + 1
  | _ :: _ => countOccFuel seg data.length data

/-- Embedding of `build_common_values_from_file` (SatTest.py lines 26-42)
with the file's bytes passed directly.  Outer loop: candidate lengths
`1, ..., n-1` ascending; inner loop: start offsets `0, ..., n-length-1`
ascending; a segment replaces the current result only when
`data.count(segment) > 1` and it is strictly longer.  The initial value
models Python's `""` (length 0, never equal to a byte segment). -/
def build_common_values_from_file (data : List Nat) : List Nat :=
  (List.range' 1 (data.length - 1)).foldl
    (fun lcs length =>
      (List.range (data.length - length)).foldl
        (fun lcs start =>
          let segment := (data.drop start).take length
          if 1 < bytesCount data segment ∧ lcs.length < segment.length then
            segment
          else lcs)
        lcs)
    []

/-- The candidate segments of the pattern miner, in exactly the
enumeration order of the source's nested loops: ascending length
(1 to n-1), then ascending start offset (0 to n-length-1). -/
def candidates (data : List Nat) : List (List Nat) :=
  (List.range' 1 (data.length - 1)).flatMap
    (fun length =>
      (List.range (data.length - length)).map
        (fun start => (data.drop start).take length))

/-- One update step of the miner's accumulator: take the candidate only
when it repeats (`count > 1`) and is strictly longer than the current
result. -/
def pick (data r c : List Nat) : List Nat :=
  if 1 < bytesCount data c ∧ r.length < c.length then c else r

/-- The byte sequence `seg` occurs in `data` at position `p`. -/
def occursAt (data seg : List Nat) (p : Nat) : Prop :=
  (data.drop p).take seg.length = seg

instance (data seg : List Nat) (p : Nat) : Decidable (occursAt data seg p) := by
  unfold occursAt
  infer_instance

/-- Number of positions of `data` at which `seg` occurs, counting
overlapping positions as distinct — the counting rule the spec's
PatternMiner contract asks for. -/
def overlapOccCount (data seg : List Nat) : Nat :=
  (List.range (data.length + 1)).countP (fun p => decide (occursAt data seg p))

/-- Explicit random source: `randint a b` models `random.randint(a, b)`,
`choice l` models `random.choice(l)` on an integer list, `choiceB` on a
boolean list, and `coin i` / `byteVal i` model the draws
`random.random() < 0.05` and `random.randint(0, 255)` made for byte `i`
inside `random_fuzz`. -/
structure RNG where
  randint : Nat → Nat → Nat
  choice : List Nat → Nat
  choiceB : List Bool → Bool
  coin : Nat → Bool
  byteVal : Nat → Nat

/-- The contract of Python's `random`: `randint a b ∈ [a, b]`, `choice`
returns an element of its (non-empty) list, and the per-byte draws of
`random_fuzz` are bytes. -/
def RNG.Valid (rng : RNG) : Prop :=
  (∀ a b, a ≤ b → a ≤ rng.randint a b ∧ rng.randint a b ≤ b) ∧
  (∀ l : List Nat, l ≠ [] → rng.choice l ∈ l) ∧
  (∀ i, rng.byteVal i ≤ 255)

/-- A concrete valid random source: `randint` returns the lower bound and
`choice` the first element. -/
def defaultRNG : RNG where
  randint := fun a _ => a
  choice := fun l => l.headD 0
  choiceB := fun l => l.headD true
  coin := fun _ => false
  byteVal := fun _ => 0

/-- Embedding of `random_fuzz` (SatTest.py lines 46-51): for each index,
with the coin drawn for that index, replace the byte by that index's
`randint(0, 255)` draw. -/
def random_fuzz (rng : RNG) (data : List Nat) : List Nat :=
  (List.range data.length).map
    (fun i => if rng.coin i then rng.byteVal i else data.getD i 0)

/-- XOR of one matched window with `0xFF`: the inner
`for j in range(L): fuzzed_data[i+j] ^= 0xFF` loop. -/
def xorWindow (buf : List Nat) (i L : Nat) : List Nat :=
  (List.range L).foldl
    (fun b j => b.set (i + j) (Nat.xor (b.getD (i + j) 0) 0xFF)) buf

/-- One iteration of the heuristic scan at position `i`: if the current
(possibly already mutated) buffer carries the pattern at `i`, complement
that window. -/
def xorStep (cv buf : List Nat) (i : Nat) : List Nat :=
  if (buf.drop i).take cv.length = cv then xorWindow buf i cv.length else buf

/-- The pattern-XOR pass of `heuristic_fuzz` (SatTest.py lines 68-74):
left-to-right scan over `range(len(data) - len(cv) + 1)`, each match
complemented in place so later window tests see earlier XORs.  (When
`cv` is longer than `buf` the Nat-truncated range adds one iteration that
Python's empty range omits; its window test is vacuously false.) -/
def xorPass (cv buf : List Nat) : List Nat :=
  (List.range (buf.length - cv.length + 1)).foldl (xorStep cv) buf

/-- Python `bytearray.__setitem__`: out-of-range index raises IndexError
and a value outside `range(0, 256)` raises ValueError; both are embedded
as `Except.error`. -/
def bytearraySet (buf : List Nat) (i v : Nat) : Except String (List Nat) :=
  if i < buf.length then
    if v < 256 then Except.ok (buf.set i v)
    else Except.error "byte must be in range(0, 256)"
  else Except.error "bytearray index out of range"

/-- Embedding of `heuristic_fuzz` (SatTest.py lines 66-94): pattern-XOR
pass, re-classification, then the protocol-specific field overwrites.
The DVB-S2 branch ends with
`fuzzed_data[4] = random.choice([16200, 64800])` and the CCSDS branch
with `fuzzed_data[4] = random.choice([True, False])` (a bool is the int
1 or 0 for a bytearray store). -/
def heuristic_fuzz (rng : RNG) (data common_value : List Nat) :
    Except String (List Nat) :=
  let fuzzed_data := xorPass common_value data
  match check_protocol fuzzed_data with
  | some Protocol.DVBS2 =>
    (bytearraySet fuzzed_data 1 (rng.randint 0 15)).bind fun f1 =>
    (bytearraySet f1 2 (rng.choice [0, 1])).bind fun f2 =>
    (bytearraySet f2 3 (rng.randint 20 35)).bind fun f3 =>
    (bytearraySet f3 4 (rng.choice [16200, 64800])).bind fun f4 =>
    Except.ok f4
  | some Protocol.CCSDS =>
    (bytearraySet fuzzed_data 1 (rng.randint 1 255)).bind fun f1 =>
    (bytearraySet f1 2 (rng.randint 0 7)).bind fun f2 =>
    (bytearraySet f2 3 (rng.randint 1 10)).bind fun f3 =>
    (bytearraySet f3 4 (if rng.choiceB [true, false] then 1 else 0)).bind fun f4 =>
    Except.ok f4
  | none => Except.ok fuzzed_data

/-- Python truthiness of an option-valued CLI argument:
`args.x if args.x else default` — absent or empty strings fall back to
the default. -/
def argOrDefault (arg : Option String) (default : String) : String :=
  match arg with
  | some s => if s.isEmpty then default else s
  | none => default

/-- Embedding of `send_signal_params_to_generation` (SatTest.py lines
98-103): the parameter string built by
`f"freq={freq};power={power};bandwidth={bandwidth}"` and sent to the
generation control port. -/
def send_signal_params_to_generation (freq power bandwidth : String) : String :=
  "freq=" ++ freq ++ ";power=" ++ power ++ ";bandwidth=" ++ bandwidth

/-- The SignalJamming mode branch (SatTest.py lines 210-217): apply the
defaults `2.4G` / `30` / `10M` to absent arguments and assemble the
parameter string that is sent. -/
def signalJammingParams (freq power bandwidth : Option String) : String :=
  send_signal_params_to_generation
    (argOrDefault freq "2.4G") (argOrDefault power "30")
    (argOrDefault bandwidth "10M")

/-- Embedding of `generate_and_send_gnss_signal` (SatTest.py lines
107-123) restricted to its error handling: given the collaborator's
output and error streams, a non-empty error stream raises
(`RuntimeError`), otherwise the output is surfaced. -/
def generate_and_send_gnss_signal (output err : String) :
    Except String String :=
  if err ≠ "" then Except.error ("Error in GPS-SDR-SIM: " ++ err)
  else Except.ok output

/-- Embedding of `run_gnuradio_script` (SatTest.py lines 127-139): a
non-empty error stream is only printed; neither branch raises. -/
def run_gnuradio_script (output err : String) : Except String String :=
  if err ≠ "" then Except.ok ("Error: " ++ err)
  else Except.ok ("Output: " ++ output)

/-- Python `str.strip()` on the character list of a string. -/
def stripChars (l : List Char) : List Char :=
  ((l.dropWhile Char.isWhitespace).reverse.dropWhile Char.isWhitespace).reverse

/-- Python `str.strip()`: drop leading and trailing whitespace.  (Defined
structurally so that concrete commands evaluate inside the kernel.) -/
def pyStrip (s : String) : String := String.mk (stripChars s.data)

/-- State of `SignalRecorder` (recording.py): whether `file_sink` is set
and whether the PlutoSDR source is connected to it (recording). -/
structure RecorderState where
  fileSink : Bool
  recording : Bool
deriving DecidableEq

/-- Observable transitions of the recorder, in the order they happen. -/
inductive RecAction where
  | started
  | stopped
deriving DecidableEq

/-- `SignalRecorder.start_recording` (recording.py lines 57-62):
unconditionally creates a fresh file sink and connects the source. -/
def start_recording (_s : RecorderState) : RecorderState :=
  { fileSink := true, recording := true }

/-- `SignalRecorder.stop_recording` (recording.py lines 64-69): only when
a file sink exists, disconnect it and clear it; otherwise no change. -/
def stop_recording (s : RecorderState) : RecorderState :=
  if s.fileSink then { fileSink := false, recording := false } else s

/-- One iteration of `SignalRecorder.listen_for_commands` (recording.py
lines 46-55): decode and strip the received bytes, dispatch on `START` /
`STOP`, ignore anything else; the connection is closed in every case. -/
def handle_command (s : RecorderState) (raw : String) :
    RecorderState × List RecAction :=
  let command := pyStrip raw
  if command = "START" then (start_recording s, [RecAction.started])
  else if command = "STOP" then (stop_recording s, [RecAction.stopped])
  else (s, [])

/-- The accept loop of `listen_for_commands`: one connection at a time,
commands processed strictly in arrival order; returns the final state and
the trace of transitions. -/
def listen_for_commands (s : RecorderState) :
    List String → RecorderState × List RecAction
  | [] => (s, [])
  | raw :: rest =>
    let r := handle_command s raw
    let rec_rest := listen_for_commands r.1 rest
    (rec_rest.1, r.2 ++ rec_rest.2)

/-! Helper lemmas. -/

/-- A fold whose step never changes the accumulator returns the initial
accumulator; this is the empty-pattern XOR pass. -/
theorem xorPass_nil (data : List Nat) : xorPass [] data = data := by
  have h : ∀ (l b : List Nat), l.foldl (xorStep []) b = b := by
    intro l
    induction l with
    | nil => intro b; rfl
    | cons a t ih =>
      intro b
      have hstep : xorStep [] b a = b := by
        simp [xorStep, xorWindow]
      rw [List.foldl_cons, hstep]
      exact ih b
  exact h _ data

/-- Classification of a buffer shorter than 10 bytes is `None`. -/
theorem check_protocol_short (data : List Nat) (h : data.length < 10) :
    check_protocol data = none := by
  unfold check_protocol
  rw [if_neg (by omega)]

/-- Any classified buffer has at least 10 bytes. -/
theorem check_protocol_some_length {data : List Nat} {pr : Protocol}
    (h : check_protocol data = some pr) : 10 ≤ data.length := by
  by_contra hlt
  rw [check_protocol_short data (by omega)] at h
  exact Option.noConfusion h

/-- Binding a successful `Except` computation applies the continuation. -/
theorem exceptBind_ok {ε α β : Type} (a : α) (f : α → Except ε β) :
    (Except.ok a : Except ε α).bind f = f a := rfl

/-- Inversion of a successful `Except` bind. -/
theorem except_bind_ok {ε α β : Type} {x : Except ε α} {f : α → Except ε β}
    {b : β} (h : x.bind f = Except.ok b) :
    ∃ a, x = Except.ok a ∧ f a = Except.ok b := by
  cases x with
  | error e => exact Except.noConfusion h
  | ok a => exact ⟨a, rfl, h⟩

/-- A successful in-range bytearray store. -/
theorem bytearraySet_ok (buf : List Nat) (i v : Nat) (hi : i < buf.length)
    (hv : v < 256) : bytearraySet buf i v = Except.ok (buf.set i v) := by
  unfold bytearraySet
  rw [if_pos hi, if_pos hv]

/-- A successful bytearray store preserves the buffer length. -/
theorem bytearraySet_ok_length {buf b : List Nat} {i v : Nat}
    (h : bytearraySet buf i v = Except.ok b) : b.length = buf.length := by
  unfold bytearraySet at h
  split at h
  · split at h
    · injection h with h'
      rw [← h']
      exact List.length_set buf i v
    · exact Except.noConfusion h
  · exact Except.noConfusion h

/-- A fold whose step preserves list length preserves it overall. -/
theorem foldl_length_fixed {f : List Nat → Nat → List Nat}
    (hf : ∀ b i, (f b i).length = b.length) :
    ∀ (l : List Nat) (b : List Nat), (l.foldl f b).length = b.length := by
  intro l
  induction l with
  | nil => intro b; rfl
  | cons a t ih => intro b; rw [List.foldl_cons, ih, hf]

/-- Complementing one window never changes the buffer length. -/
theorem xorWindow_length (buf : List Nat) (i L : Nat) :
    (xorWindow buf i L).length = buf.length :=
  foldl_length_fixed (fun b j => List.length_set b (i + j) _) _ buf

/-- One scan step never changes the buffer length. -/
theorem xorStep_length (cv buf : List Nat) (i : Nat) :
    (xorStep cv buf i).length = buf.length := by
  unfold xorStep
  split
  · exact xorWindow_length buf i cv.length
  · rfl

/-- The whole pattern-XOR pass preserves the buffer length. -/
theorem xorPass_length (cv data : List Nat) :
    (xorPass cv data).length = data.length :=
  foldl_length_fixed (xorStep_length cv) _ data

/-- The concrete random source satisfies the `random` module contract. -/
theorem defaultRNG_valid : RNG.Valid defaultRNG := by
  refine ⟨fun a b h => ⟨Nat.le_refl a, h⟩, fun l hl => ?_,
    fun i => by simp [defaultRNG]⟩
  cases l with
  | nil => exact absurd rfl hl
  | cons a t => simp [defaultRNG]

/-! Claim theorems. -/

/-- C4: `check_protocol` applies its rules in order with first match
winning — shorter than 10 bytes gives `Unknown` (`none`), then the
`0x47` rule, then the `1A CF FC` rule, else `Unknown`; the function is
pure and leaves the buffer untouched (it only reads it). -/
theorem check_protocol_ordered_rules (data : List Nat) :
    check_protocol data = checkProtocolSpec data := by
  unfold check_protocol checkProtocolSpec
  rcases Nat.lt_or_ge data.length 10 with h | h
  · rw [if_neg (by omega : ¬ 10 ≤ data.length), if_pos h]
  · rw [if_pos h, if_neg (by omega : ¬ data.length < 10)]

/-- C3 counterexample: the buffer `1A CF FC` itself (length 3 < 10) is
classified `None`, not `CCSDS` — the claim's "no restriction on the
buffer's length" fails. -/
theorem check_protocol_short_ccsds_counterexample :
    check_protocol [0x1A, 0xCF, 0xFC] ≠ some Protocol.CCSDS := by decide

/-- C3 amended: a buffer of length at least 10 whose first three bytes
are `1A CF FC` is classified `CCSDS`. -/
theorem check_protocol_ccsds_of_long (data : List Nat)
    (h10 : 10 ≤ data.length) (h3 : data.take 3 = [0x1A, 0xCF, 0xFC]) :
    check_protocol data = some Protocol.CCSDS := by
  have hhead : data.headD 0 = 0x1A := by
    cases data with
    | nil => simp at h3
    | cons a t =>
      rw [List.take_succ_cons] at h3
      have := (List.cons.injEq _ _ _ _).mp h3
      simp [this.1]
  unfold check_protocol
  rw [if_pos h10, if_neg (by rw [hhead]; decide), if_pos h3]

/-- Witness for C3's amended theorem at a concrete CCSDS frame. -/
theorem check_protocol_ccsds_of_long_witness :
    check_protocol [0x1A, 0xCF, 0xFC, 0, 0, 0, 0, 0, 0, 0] =
      some Protocol.CCSDS :=
  check_protocol_ccsds_of_long _ (by decide) (by decide)

/-- C5: SignalJamming with no freq/power/bandwidth arguments sends
exactly `freq=2.4G;power=30;bandwidth=10M` to the generation control
port.  (The branch logic does assemble exactly this string; note the
module can never reach it at runtime, see RESULTS.) -/
theorem signal_jamming_default_params :
    signalJammingParams none none none = "freq=2.4G;power=30;bandwidth=10M" := rfl

/-- C6: `generate_and_send_gnss_signal` raises exactly when the GNSS
collaborator's error stream is non-empty and surfaces the output
otherwise, while `run_gnuradio_script` never raises whatever the error
stream holds. -/
theorem gnss_fatal_generic_logged (output err : String) :
    ((∃ msg, generate_and_send_gnss_signal output err = Except.error msg) ↔
      err ≠ "") ∧
    (err = "" → generate_and_send_gnss_signal output err = Except.ok output) ∧
    (∃ res, run_gnuradio_script output err = Except.ok res) := by
  by_cases h : err = ""
  · subst h
    refine ⟨?_, fun _ => ?_, ?_⟩ <;>
      simp [generate_and_send_gnss_signal, run_gnuradio_script]
  · refine ⟨?_, fun he => absurd he h, ?_⟩ <;>
      simp [generate_and_send_gnss_signal, run_gnuradio_script, h]

/-- Witness for C6 at a concrete failing and a concrete clean run. -/
theorem gnss_fatal_generic_logged_witness :
    ((∃ msg, generate_and_send_gnss_signal "out" "boom" = Except.error msg) ↔
      ("boom" : String) ≠ "") ∧
    generate_and_send_gnss_signal "out" "" = Except.ok "out" ∧
    (∃ res, run_gnuradio_script "out" "boom" = Except.ok res) :=
  ⟨(gnss_fatal_generic_logged "out" "boom").1,
   (gnss_fatal_generic_logged "out" "").2.1 rfl,
   (gnss_fatal_generic_logged "out" "boom").2.2⟩

/-- C7: the recorder's control loop dispatches `START` to
`start_recording` and `STOP` to `stop_recording`, once per command and in
arrival order (the trace is the order-preserving projection of the
command list), and any other command leaves the state unchanged. -/
theorem recorder_command_dispatch (s : RecorderState) (cmds : List String) :
    (listen_for_commands s cmds).2 = cmds.filterMap
      (fun raw =>
        if pyStrip raw = "START" then some RecAction.started
        else if pyStrip raw = "STOP" then some RecAction.stopped
        else none) ∧
    (∀ raw, pyStrip raw ≠ "START" → pyStrip raw ≠ "STOP" →
      handle_command s raw = (s, [])) := by
  constructor
  · induction cmds generalizing s with
    | nil => rfl
    | cons raw rest ih =>
      simp only [listen_for_commands, List.filterMap_cons]
      by_cases h1 : pyStrip raw = "START"
      · simp [handle_command, h1, ih]
      · by_cases h2 : pyStrip raw = "STOP" <;> simp [handle_command, h1, h2, ih]
  · intro raw h1 h2
    simp [handle_command, h1, h2]

/-- Witness for C7: a START, an unrecognized PING and a STOP produce the
trace started-then-stopped, and PING alone changes nothing. -/
theorem recorder_command_dispatch_witness :
    (listen_for_commands ⟨false, false⟩ ["START", "PING", "STOP"]).2 =
      (["START", "PING", "STOP"] : List String).filterMap
        (fun raw =>
          if pyStrip raw = "START" then some RecAction.started
          else if pyStrip raw = "STOP" then some RecAction.stopped
          else none) ∧
    handle_command ⟨false, false⟩ "PING" = (⟨false, false⟩, []) :=
  ⟨(recorder_command_dispatch ⟨false, false⟩ ["START", "PING", "STOP"]).1,
   (recorder_command_dispatch ⟨false, false⟩ []).2 "PING" (by decide) (by decide)⟩

/-- C9: with an empty mined pattern the XOR pass is the identity, and a
buffer classified `None` (in particular any buffer shorter than 10
bytes) passes through `heuristic_fuzz` unchanged. -/
theorem heuristic_fuzz_empty_pattern (rng : RNG) (data : List Nat) :
    xorPass [] data = data ∧
    (check_protocol data = none → heuristic_fuzz rng data [] = Except.ok data) ∧
    (data.length < 10 → heuristic_fuzz rng data [] = Except.ok data) := by
  have hx := xorPass_nil data
  have hmain : check_protocol data = none →
      heuristic_fuzz rng data [] = Except.ok data := by
    intro h
    simp only [heuristic_fuzz, hx, h]
  exact ⟨hx, hmain, fun hlen => hmain (check_protocol_short data hlen)⟩

/-- Witness for C9 at a short concrete buffer. -/
theorem heuristic_fuzz_empty_pattern_witness :
    xorPass [] [1, 2, 3] = [1, 2, 3] ∧
    heuristic_fuzz defaultRNG [1, 2, 3] [] = Except.ok [1, 2, 3] :=
  ⟨(heuristic_fuzz_empty_pattern defaultRNG [1, 2, 3]).1,
   (heuristic_fuzz_empty_pattern defaultRNG [1, 2, 3]).2.1 (by decide)⟩

/-- C1: on any buffer that the post-XOR classification tags DVB-S2 the
field-overwrite step raises: after MODCOD, PILOT and ROLL-OFF are stored,
`fuzzed_data[4] = random.choice([16200, 64800])` stores a value outside
`range(0, 256)` into a single bytearray cell, so `heuristic_fuzz` ends in
a ValueError instead of returning a buffer. -/
theorem heuristic_fuzz_dvbs2_raises (rng : RNG) (data cv : List Nat)
    (hrng : RNG.Valid rng)
    (hcls : check_protocol (xorPass cv data) = some Protocol.DVBS2) :
    heuristic_fuzz rng data cv = Except.error "byte must be in range(0, 256)" := by
  obtain ⟨hri, hch, _⟩ := hrng
  have hv1 : rng.randint 0 15 < 256 := by
    have := (hri 0 15 (by omega)).2
    omega
  have hv2 : rng.choice [0, 1] < 256 := by
    have hm : rng.choice [0, 1] = 0 ∨ rng.choice [0, 1] = 1 := by
      simpa using hch [0, 1] (by decide)
    rcases hm with h | h <;> omega
  have hv3 : rng.randint 20 35 < 256 := by
    have := (hri 20 35 (by omega)).2
    omega
  have hv4 : ¬ rng.choice [16200, 64800] < 256 := by
    have hm : rng.choice [16200, 64800] = 16200 ∨
        rng.choice [16200, 64800] = 64800 := by
      simpa using hch [16200, 64800] (by decide)
    rcases hm with h | h <;> omega
  have hmain : ∀ fz : List Nat, 10 ≤ fz.length →
      ((bytearraySet fz 1 (rng.randint 0 15)).bind fun f1 =>
       (bytearraySet f1 2 (rng.choice [0, 1])).bind fun f2 =>
       (bytearraySet f2 3 (rng.randint 20 35)).bind fun f3 =>
       (bytearraySet f3 4 (rng.choice [16200, 64800])).bind fun f4 =>
       Except.ok f4) = Except.error "byte must be in range(0, 256)" := by
    intro fz hlen
    rw [bytearraySet_ok fz 1 _ (by omega) hv1]
    simp only [exceptBind_ok]
    rw [bytearraySet_ok _ 2 _ (by rw [List.length_set]; omega) hv2]
    simp only [exceptBind_ok]
    rw [bytearraySet_ok _ 3 _ (by rw [List.length_set, List.length_set]; omega) hv3]
    simp only [exceptBind_ok]
    have herr : bytearraySet (((fz.set 1 (rng.randint 0 15)).set 2
        (rng.choice [0, 1])).set 3 (rng.randint 20 35)) 4
        (rng.choice [16200, 64800]) =
        Except.error "byte must be in range(0, 256)" := by
      unfold bytearraySet
      rw [if_pos (by rw [List.length_set, List.length_set, List.length_set]; omega),
        if_neg hv4]
    rw [herr]
    rfl
  have hlen : 10 ≤ (xorPass cv data).length := check_protocol_some_length hcls
  simp only [heuristic_fuzz, hcls]
  exact hmain (xorPass cv data) hlen

/-- Witness for C1: a plain DVB-S2 frame (sync byte `0x47`, length 10)
with an empty mined pattern makes `heuristic_fuzz` raise. -/
theorem heuristic_fuzz_dvbs2_raises_witness :
    heuristic_fuzz defaultRNG [0x47, 0, 0, 0, 0, 0, 0, 0, 0, 0] [] =
      Except.error "byte must be in range(0, 256)" :=
  heuristic_fuzz_dvbs2_raises defaultRNG [0x47, 0, 0, 0, 0, 0, 0, 0, 0, 0] []
    defaultRNG_valid (by decide)

/-- C8: `random_fuzz` always returns a buffer of the input's length, and
`heuristic_fuzz` returns one of the input's length whenever it returns at
all — but on a DVB-S2-classified buffer it raises instead of returning
(third conjunct: a concrete failing run). -/
theorem fuzz_strategies_length :
    (∀ (rng : RNG) (data : List Nat),
      (random_fuzz rng data).length = data.length) ∧
    (∀ (rng : RNG) (data cv b : List Nat),
      heuristic_fuzz rng data cv = Except.ok b → b.length = data.length) ∧
    heuristic_fuzz defaultRNG [0x47, 1, 2, 3, 4, 5, 6, 7, 8, 9] [] =
      Except.error "byte must be in range(0, 256)" := by
  refine ⟨?_, ?_, rfl⟩
  · intro rng data
    simp [random_fuzz]
  · intro rng data cv b h
    have hx : (xorPass cv data).length = data.length := xorPass_length cv data
    simp only [heuristic_fuzz] at h
    cases hcp : check_protocol (xorPass cv data) with
    | none =>
      rw [hcp] at h
      injection h with h'
      rw [← h']
      exact hx
    | some pr =>
      cases pr with
      | DVBS2 =>
        rw [hcp] at h
        obtain ⟨a1, ha1, h⟩ := except_bind_ok h
        obtain ⟨a2, ha2, h⟩ := except_bind_ok h
        obtain ⟨a3, ha3, h⟩ := except_bind_ok h
        obtain ⟨a4, ha4, h⟩ := except_bind_ok h
        injection h with h'
        rw [← h', bytearraySet_ok_length ha4, bytearraySet_ok_length ha3,
          bytearraySet_ok_length ha2, bytearraySet_ok_length ha1]
        exact hx
      | CCSDS =>
        rw [hcp] at h
        obtain ⟨a1, ha1, h⟩ := except_bind_ok h
        obtain ⟨a2, ha2, h⟩ := except_bind_ok h
        obtain ⟨a3, ha3, h⟩ := except_bind_ok h
        obtain ⟨a4, ha4, h⟩ := except_bind_ok h
        injection h with h'
        rw [← h', bytearraySet_ok_length ha4, bytearraySet_ok_length ha3,
          bytearraySet_ok_length ha2, bytearraySet_ok_length ha1]
        exact hx

/-- Witness for C8 at a CCSDS frame on which `heuristic_fuzz` does
return: the output length equals the input length. -/
theorem fuzz_strategies_length_witness :
    ([26, 1, 0, 1, 1, 0, 0, 0, 0, 0] : List Nat).length =
      ([26, 207, 252, 0, 0, 0, 0, 0, 0, 0] : List Nat).length :=
  fuzz_strategies_length.2.1 defaultRNG [26, 207, 252, 0, 0, 0, 0, 0, 0, 0] []
    [26, 1, 0, 1, 1, 0, 0, 0, 0, 0] rfl

/-! Pattern-miner lemmas: extracting occurrence positions from the greedy
non-overlapping count, and the behaviour of the strict-improvement fold. -/

/-- Occurrences shift under a cons. -/
theorem occursAt_cons {a : Nat} {rest seg : List Nat} {p : Nat}
    (h : occursAt rest seg p) : occursAt (a :: rest) seg (p + 1) := by
  unfold occursAt at h ⊢
  rw [List.drop_succ_cons]
  exact h

/-- Occurrences in a dropped tail are occurrences in the whole buffer. -/
theorem occursAt_of_drop {data seg : List Nat} {k p : Nat}
    (h : occursAt (data.drop k) seg p) : occursAt data seg (k + p) := by
  unfold occursAt at h ⊢
  rw [← List.drop_drop]
  exact h

/-- A positive greedy count yields an occurrence position. -/
theorem countOccFuel_pos {seg : List Nat} :
    ∀ (fuel : Nat) (data : List Nat), 1 ≤ countOccFuel seg fuel data →
      ∃ p, occursAt data seg p := by
  intro fuel
  induction fuel with
  | zero => intro data h; simp [countOccFuel] at h
  | succ n ih =>
    intro data h
    cases data with
    | nil => simp [countOccFuel] at h
    | cons a rest =>
      by_cases hp : (a :: rest).take seg.length = seg
      · exact ⟨0, by simpa [occursAt] using hp⟩
      · simp only [countOccFuel, if_neg hp] at h
        obtain ⟨p, hpocc⟩ := ih rest h
        exact ⟨p + 1, occursAt_cons hpocc⟩

/-- A greedy count of at least two yields two occurrences whose windows
do not overlap: the second position starts at or after the end of the
first window. -/
theorem countOccFuel_two {seg : List Nat} :
    ∀ (fuel : Nat) (data : List Nat), 2 ≤ countOccFuel seg fuel data →
      ∃ p q, occursAt data seg p ∧ occursAt data seg q ∧
        p + seg.length ≤ q := by
  intro fuel
  induction fuel with
  | zero => intro data h; simp [countOccFuel] at h
  | succ n ih =>
    intro data h
    cases data with
    | nil => simp [countOccFuel] at h
    | cons a rest =>
      by_cases hp : (a :: rest).take seg.length = seg
      · simp only [countOccFuel, if_pos hp] at h
        have h1 : 1 ≤ countOccFuel seg n ((a :: rest).drop seg.length) := by
          omega
        obtain ⟨p, hpocc⟩ := countOccFuel_pos n _ h1
        refine ⟨0, seg.length + p, by simpa [occursAt] using hp,
          occursAt_of_drop hpocc, by omega⟩
      · simp only [countOccFuel, if_neg hp] at h
        obtain ⟨p, q, hp1, hq1, hle⟩ := ih rest h
        exact ⟨p + 1, q + 1, occursAt_cons hp1, occursAt_cons hq1, by omega⟩

/-- An occurrence of a non-empty sequence fits inside the buffer. -/
theorem occursAt_le_length {data seg : List Nat} {p : Nat} (hseg : seg ≠ [])
    (h : occursAt data seg p) : p + seg.length ≤ data.length := by
  unfold occursAt at h
  have hl := congrArg List.length h
  rw [List.length_take, List.length_drop] at hl
  have hpos : 0 < seg.length := List.length_pos.mpr hseg
  omega

/-- Every non-empty sequence with repeated (non-overlapping) occurrences
is one of the miner's enumerated candidates. -/
theorem mem_candidates_of_repeat {data seg : List Nat} (hseg : seg ≠ [])
    (hcnt : 1 < bytesCount data seg) : seg ∈ candidates data := by
  obtain ⟨s, ss, rfl⟩ : ∃ s ss, seg = s :: ss := by
    cases seg with
    | nil => exact absurd rfl hseg
    | cons s ss => exact ⟨s, ss, rfl⟩
  have h2 : 2 ≤ countOccFuel (s :: ss) data.length data := by
    simpa [bytesCount] using hcnt
  obtain ⟨p, q, hpo, hqo, hle⟩ := countOccFuel_two data.length data h2
  have hqn := occursAt_le_length hseg hqo
  have hpos : 0 < (s :: ss).length := List.length_pos.mpr hseg
  unfold candidates
  rw [List.mem_flatMap]
  refine ⟨(s :: ss).length, ?_, ?_⟩
  · rw [List.mem_range'_1]
    omega
  · rw [List.mem_map]
    refine ⟨p, ?_, hpo⟩
    rw [List.mem_range]
    omega

/-- One miner update never shortens the accumulated result. -/
theorem pick_length_le (data r c : List Nat) :
    r.length ≤ (pick data r c).length := by
  unfold pick
  split
  · next h => exact Nat.le_of_lt h.2
  · exact Nat.le_refl _

/-- The miner fold never shortens the accumulated result. -/
theorem foldl_pick_length_le (data : List Nat) :
    ∀ (cs : List (List Nat)) (r : List Nat),
      r.length ≤ (cs.foldl (pick data) r).length := by
  intro cs
  induction cs with
  | nil => intro r; exact Nat.le_refl _
  | cons c t ih =>
    intro r
    exact Nat.le_trans (pick_length_le data r c) (ih (pick data r c))

/-- The miner fold dominates every accepted candidate's length. -/
theorem foldl_pick_max (data : List Nat) :
    ∀ (cs : List (List Nat)) (r c : List Nat), c ∈ cs →
      1 < bytesCount data c → c.length ≤ (cs.foldl (pick data) r).length := by
  intro cs
  induction cs with
  | nil => intro r c hc _; exact absurd hc (List.not_mem_nil c)
  | cons a t ih =>
    intro r c hc hcnt
    rw [List.foldl_cons]
    rcases List.mem_cons.mp hc with rfl | hmem
    · have hstep : c.length ≤ (pick data r c).length := by
        unfold pick
        split
        · exact Nat.le_refl _
        · next h =>
          have := not_and.mp h hcnt
          omega
      exact Nat.le_trans hstep (foldl_pick_length_le data t _)
    · exact ih _ c hmem hcnt

/-- The miner fold's result is either the initial accumulator or an
accepted candidate, positioned so that every earlier candidate is
rejected or strictly shorter — the strict-improvement update keeps the
first accepted candidate of each new length. -/
theorem foldl_pick_first (data : List Nat) :
    ∀ (cs : List (List Nat)) (r : List Nat),
      cs.foldl (pick data) r = r ∨
      ∃ l1 l2, cs = l1 ++ cs.foldl (pick data) r :: l2 ∧
        1 < bytesCount data (cs.foldl (pick data) r) ∧
        r.length < (cs.foldl (pick data) r).length ∧
        ∀ c ∈ l1, ¬(1 < bytesCount data c ∧
          (cs.foldl (pick data) r).length ≤ c.length) := by
  intro cs
  induction cs with
  | nil => intro r; exact Or.inl rfl
  | cons a t ih =>
    intro r
    rw [List.foldl_cons]
    by_cases hcond : 1 < bytesCount data a ∧ r.length < a.length
    · have hpick : pick data r a = a := by unfold pick; rw [if_pos hcond]
      rw [hpick]
      rcases ih a with heq | ⟨l1, l2, hsplit, hbc, hlt, hall⟩
      · rw [heq]
        exact Or.inr ⟨[], t, rfl, hcond.1, hcond.2, by simp⟩
      · refine Or.inr ⟨a :: l1, l2, ?_, hbc, Nat.lt_trans hcond.2 hlt, ?_⟩
        · rw [List.cons_append, ← hsplit]
        · intro c hc
          rcases List.mem_cons.mp hc with rfl | hmem
          · intro hcontra
            exact absurd hlt (Nat.not_lt.mpr hcontra.2)
          · exact hall c hmem
    · have hpick : pick data r a = r := by unfold pick; rw [if_neg hcond]
      rw [hpick]
      rcases ih r with heq | ⟨l1, l2, hsplit, hbc, hlt, hall⟩
      · exact Or.inl heq
      · refine Or.inr ⟨a :: l1, l2, ?_, hbc, hlt, ?_⟩
        · rw [List.cons_append, ← hsplit]
        · intro c hc
          rcases List.mem_cons.mp hc with rfl | hmem
          · intro hcontra
            exact hcond ⟨hcontra.1, by omega⟩
          · exact hall c hmem

/-- Folding over a flattened enumeration is the nested fold. -/
theorem foldl_flatMap (l : List Nat) (f : Nat → List (List Nat))
    (g : List Nat → List Nat → List Nat) (init : List Nat) :
    (l.flatMap f).foldl g init =
      l.foldl (fun acc x => (f x).foldl g acc) init := by
  induction l generalizing init with
  | nil => rfl
  | cons a t ih =>
    rw [List.flatMap_cons, List.foldl_append, List.foldl_cons, ih]

/-- The source's nested loops are the fold of `pick` over the candidate
enumeration. -/
theorem bcv_eq_foldl (data : List Nat) :
    build_common_values_from_file data =
      (candidates data).foldl (pick data) [] := by
  unfold build_common_values_from_file candidates pick
  rw [foldl_flatMap]
  simp only [List.foldl_map]

/-- C2 (amended): the miner returns the longest sequence whose greedy
NON-overlapping occurrence count (Python `bytes.count`) exceeds one — the
result dominates the length of every such sequence, and it is either
empty or itself such a sequence placed in the ascending-length-then-
ascending-offset candidate enumeration with every earlier candidate
rejected or strictly shorter (the first-found tie-break). -/
theorem build_common_values_longest_nonoverlapping (data : List Nat) :
    (∀ seg : List Nat, 1 < bytesCount data seg →
      seg.length ≤ (build_common_values_from_file data).length) ∧
    (build_common_values_from_file data = [] ∨
      (1 < bytesCount data (build_common_values_from_file data) ∧
       ∃ l1 l2, candidates data =
           l1 ++ build_common_values_from_file data :: l2 ∧
         ∀ c ∈ l1, ¬(1 < bytesCount data c ∧
           (build_common_values_from_file data).length ≤ c.length))) := by
  rw [bcv_eq_foldl]
  constructor
  · intro seg hcnt
    cases hcase : seg with
    | nil => simp
    | cons s ss =>
      rw [← hcase]
      have hmem := mem_candidates_of_repeat (by rw [hcase]; simp) hcnt
      exact foldl_pick_max data (candidates data) [] seg hmem hcnt
  · rcases foldl_pick_first data (candidates data) [] with heq | hsplit
    · exact Or.inl heq
    · obtain ⟨l1, l2, hs, hbc, _, hall⟩ := hsplit
      exact Or.inr ⟨hbc, l1, l2, hs, hall⟩

/-- Witness for C2's amended theorem: in `ABAB` the pair `AB` repeats
without overlap, so the mined result is at least 2 bytes long. -/
theorem build_common_values_longest_witness :
    ([65, 66] : List Nat).length ≤
      (build_common_values_from_file [65, 66, 65, 66]).length :=
  (build_common_values_longest_nonoverlapping [65, 66, 65, 66]).1 [65, 66]
    (by decide)

/-- C2 counterexample: in `AAA` the sequence `AA` occurs at the two
overlapping positions 0 and 1, yet the miner returns the strictly
shorter `A` — `data.count` counts non-overlapping occurrences, so the
claim's "possibly overlapping" counting rule does not hold. -/
theorem build_common_values_overlap_counterexample :
    build_common_values_from_file [65, 65, 65] = [65] ∧
    occursAt [65, 65, 65] [65, 65] 0 ∧
    occursAt [65, 65, 65] [65, 65] 1 ∧
    2 ≤ overlapOccCount [65, 65, 65] [65, 65] ∧
    (build_common_values_from_file [65, 65, 65]).length <
      ([65, 65] : List Nat).length := by
  decide

/-- C10: a non-empty mined pattern occurs at two positions whose windows
are disjoint (the second starts at or past the end of the first), and is
strictly shorter than the reference buffer. -/
theorem bcv_nonempty_disjoint_repeats (data : List Nat)
    (h : build_common_values_from_file data ≠ []) :
    (∃ p q, occursAt data (build_common_values_from_file data) p ∧
      occursAt data (build_common_values_from_file data) q ∧
      p + (build_common_values_from_file data).length ≤ q) ∧
    (build_common_values_from_file data).length < data.length := by
  have hfold := foldl_pick_first data (candidates data) []
  rw [← bcv_eq_foldl] at hfold
  rcases hfold with heq | ⟨_, _, _, hbc, _, _⟩
  · exact absurd heq h
  · have h2 : 2 ≤ countOccFuel (build_common_values_from_file data)
        data.length data := by
      obtain ⟨s, ss, hR⟩ : ∃ s ss,
          build_common_values_from_file data = s :: ss := by
        cases hcase : build_common_values_from_file data with
        | nil => exact absurd hcase h
        | cons s ss => exact ⟨s, ss, rfl⟩
      rw [hR] at hbc ⊢
      simpa [bytesCount] using hbc
    obtain ⟨p, q, hp, hq, hle⟩ := countOccFuel_two data.length data h2
    have hqn := occursAt_le_length h hq
    have hpos : 0 < (build_common_values_from_file data).length :=
      List.length_pos.mpr h
    exact ⟨⟨p, q, hp, hq, hle⟩, by omega⟩

/-- Witness for C10: in the buffer `[7, 7]` the mined pattern is
non-empty, occurs at the disjoint positions 0 and 1 and is shorter than
the buffer. -/
theorem bcv_nonempty_disjoint_repeats_witness :
    (∃ p q, occursAt [7, 7] (build_common_values_from_file [7, 7]) p ∧
      occursAt [7, 7] (build_common_values_from_file [7, 7]) q ∧
      p + (build_common_values_from_file [7, 7]).length ≤ q) ∧
    (build_common_values_from_file [7, 7]).length <
      ([7, 7] : List Nat).length :=
  bcv_nonempty_disjoint_repeats [7, 7] (by decide)

end AirSec
